import Mathlib

/-!
Verification development for the auto-syntax-fixer program (src/app.py).

The Python source is shallowly embedded. Pure fragments become Lean
functions, the mutable statistics dictionary becomes explicit state
passing, and the regular expressions of the source are translated into
executable predicates on character lists. The rule engine applies its
regexes to single lines obtained by splitting the content at newline
characters, so the dollar anchor is modeled as end of string and the dot
class as any character; the whitespace class and str.strip are modeled
over ASCII whitespace. Subprocess invocation (ShellChampion.execute_tool)
and the filesystem (Path.exists, rglob discovery, file reads) are
abstracted as explicit parameters; wall-clock durations are passed as
exact rational parameters. The unbounded memo cache of the analyzer is
pure memoization and is dropped without changing input-output behavior.
-/

namespace AutoSyntaxFixer

/-- ASCII whitespace, modeling the regex whitespace class and str.strip. -/
def isPySpace (c : Char) : Bool :=
  c = ' ' || c = '\t' || c = '\n' || c = '\r' || c = '\x0b' || c = '\x0c'

/-- ASCII word characters, modeling the regex word class. -/
def isWordChar (c : Char) : Bool := c.isAlphanum || c = '_'

def lbraceC : Char := Char.ofNat 123

def rbraceC : Char := Char.ofNat 125

def dquoteC : Char := Char.ofNat 34

def squoteC : Char := Char.ofNat 39

/-- str.lstrip on characters. -/
def lstripL (l : List Char) : List Char := l.dropWhile isPySpace

/-- str.rstrip on characters. -/
def rstripL (l : List Char) : List Char := (l.reverse.dropWhile isPySpace).reverse

/-- str.strip on characters. -/
def stripL (l : List Char) : List Char := rstripL (lstripL l)

/-- Python content.split on the newline character: always at least one
piece, and a trailing newline yields a trailing empty piece. -/
def splitNL : List Char → List (List Char)
  | [] => [[]]
  | c :: rest =>
    if c = '\n' then [] :: splitNL rest
    else
      match splitNL rest with
      | h :: t => (c :: h) :: t
      | [] => [[c]]

/-- Python newline.join on character lists. -/
def joinNL : List (List Char) → List Char
  | [] => []
  | [x] => x
  | x :: xs => x ++ '\n' :: joinNL xs

/-! ## LanguageDetector (src/app.py lines 132-176) -/

/-- The static extension table of LanguageDetector. -/
def extensionMap : List (String × String) :=
  [(".py", "python"), (".js", "javascript"), (".jsx", "javascript"),
   (".ts", "typescript"), (".tsx", "typescript"), (".go", "go"),
   (".rs", "rust"), (".java", "java"), (".cpp", "cpp"), (".cc", "cpp"),
   (".cxx", "cpp"), (".c", "c"), (".h", "c"), (".hpp", "cpp")]

/-- Dictionary lookup on an association list. -/
def lookupStr : List (String × String) → String → Option String
  | [], _ => none
  | (k, v) :: rest, key => if k = key then some v else lookupStr rest key

/-- The final path component: pathlib drops trailing slashes and takes the
part after the last remaining slash. -/
def pathName (p : String) : String :=
  ⟨((p.data.reverse.dropWhile (fun c => c = '/')).takeWhile (fun c => !(c = '/'))).reverse⟩

/-- pathlib suffix: the dotted extension of the name; empty when the last
dot is leading, trailing or absent. -/
def pathSuffix (p : String) : String :=
  let r := (pathName p).data.reverse
  let pre := r.takeWhile (fun c => !(c = '.'))
  if pre.length = r.length then ""
  else if pre.length = 0 then ""
  else if pre.length + 1 = r.length then ""
  else ⟨'.' :: pre.reverse⟩

/-- str.lower, character by character (ASCII). -/
def lowerStr (s : String) : String := ⟨s.data.map Char.toLower⟩

/-- Suffixes of the content starting at each line start, modeling the
caret anchor under the MULTILINE flag. -/
def lineStartsAux : List Char → List (List Char)
  | [] => []
  | c :: rest => if c = '\n' then rest :: lineStartsAux rest else lineStartsAux rest

def lineStarts (l : List Char) : List (List Char) := l :: lineStartsAux l

/-- Content signature of shape caret, whitespace star, keyword,
whitespace plus. The keyword begins with a letter, so the whitespace star
must consume the whole leading whitespace run. -/
def kwLinePat (kw : String) (content : List Char) : Bool :=
  (lineStarts content).any fun t =>
    let u := t.dropWhile isPySpace
    kw.data.isPrefixOf u &&
    (match u.drop kw.data.length with
     | c :: _ => isPySpace c
     | [] => false)

/-- Length of the leading whitespace run. -/
def wsRunLen (l : List Char) : Nat := (l.takeWhile isPySpace).length

/-- Tail of the from-import signature: whitespace plus, a nonempty
newline-free dot-class segment, then the word import. -/
def fromImportTail (v : List Char) : Bool :=
  (List.range (wsRunLen v)).any fun k1 =>
    let z := v.drop (k1 + 1)
    (List.range z.length).any fun j1 =>
      ((z.take (j1 + 1)).all fun c => !(c = '\n')) &&
      "import".data.isPrefixOf (z.drop (j1 + 1))

def pFromImport (content : List Char) : Bool :=
  (lineStarts content).any fun t =>
    let u := t.dropWhile isPySpace
    "from".data.isPrefixOf u && fromImportTail (u.drop 4)

/-- Plain substring search. -/
def substrB (pat l : List Char) : Bool := l.tails.any fun t => pat.isPrefixOf t

def pRequire (content : List Char) : Bool := substrB "require(".data content

/-- Signature: caret, whitespace star, import, whitespace plus, open paren. -/
def pImportParen (content : List Char) : Bool :=
  (lineStarts content).any fun t =>
    let u := t.dropWhile isPySpace
    "import".data.isPrefixOf u &&
    (let v := u.drop 6
     (match v with | c :: _ => isPySpace c | [] => false) &&
     (match v.dropWhile isPySpace with
      | c :: _ => c = '('
      | [] => false))

/-- Signature: caret, whitespace star, public, whitespace plus, class. -/
def pPublicClass (content : List Char) : Bool :=
  (lineStarts content).any fun t =>
    let u := t.dropWhile isPySpace
    "public".data.isPrefixOf u &&
    (let v := u.drop 6
     (match v with | c :: _ => isPySpace c | [] => false) &&
     "class".data.isPrefixOf (v.dropWhile isPySpace))

/-- The content signature table, in source dictionary order. -/
def contentPatterns : List (String × List (List Char → Bool)) :=
  [("python", [kwLinePat "def", kwLinePat "class", kwLinePat "import", pFromImport]),
   ("javascript", [kwLinePat "function", kwLinePat "const", kwLinePat "let", pRequire]),
   ("go", [kwLinePat "package", kwLinePat "func", pImportParen, kwLinePat "var"]),
   ("rust", [kwLinePat "fn", kwLinePat "pub", kwLinePat "use", kwLinePat "struct"]),
   ("java", [pPublicClass, kwLinePat "package", kwLinePat "import"])]

/-- First language whose signatures score at least two matches. -/
def contentDetect : List (String × List (List Char → Bool)) → List Char → String
  | [], _ => "unknown"
  | (lang, pats) :: rest, content =>
    if 2 ≤ pats.countP (fun p => p content) then lang
    else contentDetect rest content

/-- LanguageDetector.detect_language: extension lookup first, content
signatures only when the content is nonempty, else unknown. -/
def detect_language (filePath content : String) : String :=
  match lookupStr extensionMap (lowerStr (pathSuffix filePath)) with
  | some lang => lang
  | none =>
    if content = "" then "unknown"
    else contentDetect contentPatterns content.data

/-! ## SyntaxAnalyzer rule regexes (src/app.py lines 178-248)

Each rule pattern is matched with re.search against one line, and each
fix is a per-line transform. The patterns are translated one by one into
executable predicates; lines come from splitting at newlines, so they
contain no newline and the dollar anchor means end of string. -/

/-- The keyword alternation of the missing_colon pattern. -/
def mcKeywords : List (List Char) :=
  ["if".data, "elif".data, "else".data, "for".data, "while".data, "def".data,
   "class".data, "try".data, "except".data, "finally".data, "with".data]

/-- After the keyword: whitespace plus, then a colon-free run to the end.
Whitespace is colon-free, so this is: nonempty, leading whitespace
character, no colon anywhere. -/
def noColonWsTail (r : List Char) : Bool :=
  match r with
  | [] => false
  | c :: _ => isPySpace c && r.all fun d => !(d = ':')

/-- Pattern missing_colon: a keyword occurrence followed by whitespace
and a colon-free run reaching the end of the line. -/
def matchMissingColonL (l : List Char) : Bool :=
  l.tails.any fun t => mcKeywords.any fun k =>
    k.isPrefixOf t && noColonWsTail (t.drop k.length)

/-- Fix missing_colon: line.rstrip() + colon. -/
def fixMissingColonL (l : List Char) : List Char := rstripL l ++ [':']

/-- After at least one whitespace character: whitespace star, a
non-open-paren character, a dot-class run, and a non-close-paren
character at the end of the line. -/
def ppAfterWs : List Char → Bool
  | [] => false
  | c :: rest =>
    (!(c = '(') && !rest.isEmpty && !(rest.getLastD ' ' = ')')) ||
    (isPySpace c && ppAfterWs rest)

/-- After the word print: whitespace plus, then the rest of the
print_parentheses pattern. -/
def ppCond : List Char → Bool
  | [] => false
  | c :: rest => isPySpace c && ppAfterWs rest

/-- Pattern print_parentheses. -/
def matchPrintParL (l : List Char) : Bool :=
  l.tails.any fun t => "print".data.isPrefixOf t && ppCond (t.drop 5)

/-- The substitution pattern of the print_parentheses fix matches at a
position when the word print is followed by a whitespace character and at
least one further character. -/
def ppHere (t : List Char) : Bool :=
  "print".data.isPrefixOf t &&
  (match t.drop 5 with
   | d :: e => isPySpace d && !e.isEmpty
   | [] => false)

/-- Leftmost split for the print_parentheses substitution: the prefix
before the match and the characters after the word print. -/
def ppSplit : List Char → Option (List Char × List Char)
  | [] => none
  | c :: rest =>
    if ppHere (c :: rest) then some ([], (c :: rest).drop 5)
    else
      match ppSplit rest with
      | some (pre, r) => some (c :: pre, r)
      | none => none

/-- The greedy capture of the substitution: the whitespace-plus run takes
the maximal whitespace prefix, backing off one character when it would
reach the end, and the dot-class group takes everything that remains. -/
def ppCapture (r : List Char) : List Char :=
  let k := wsRunLen r
  if (r.drop k).isEmpty then r.drop (r.length - 1) else r.drop k

/-- Fix print_parentheses: rewrite the matched span, which always extends
to the end of the line, as print, open paren, capture, close paren. -/
def fixPrintParL (l : List Char) : List Char :=
  match ppSplit l with
  | none => l
  | some (pre, r) => pre ++ "print(".data ++ ppCapture r ++ [')']

/-- Pattern indentation: caret, whitespace star, one non-whitespace
character, dot star; it matches exactly the lines holding a
non-whitespace character. -/
def matchIndentL (l : List Char) : Bool := !(l.dropWhile isPySpace).isEmpty

/-- First keyword alternation inside _fix_python_indentation. -/
def indKw1 : List (List Char) :=
  ["class".data, "def".data, "if".data, "for".data, "while".data, "try".data,
   "except".data, "finally".data, "with".data]

/-- Second keyword alternation inside _fix_python_indentation. -/
def indKw2 : List (List Char) := ["elif".data, "else".data, "except".data, "finally".data]

def sp4 : List Char := [' ', ' ', ' ', ' ']

/-- re.match of caret, whitespace star, keyword alternation: the keyword
must appear right after the leading whitespace run. -/
def startsKw (ks : List (List Char)) (l : List Char) : Bool :=
  ks.any fun k => k.isPrefixOf (lstripL l)

/-- _fix_python_indentation. -/
def fixIndentL (l : List Char) : List Char :=
  if (stripL l).isEmpty then l
  else if startsKw indKw1 l then sp4 ++ stripL l
  else if startsKw indKw2 l then stripL l
  else sp4 ++ stripL l

/-- Pattern missing_semicolon: the last character of the line is not a
semicolon, a brace or whitespace. -/
def matchMissingSemiL (l : List Char) : Bool :=
  match l.getLast? with
  | some c => !(c = ';') && !(c = lbraceC) && !(c = rbraceC) && !isPySpace c
  | none => false

/-- Fix missing_semicolon: line.rstrip() + semicolon. -/
def fixMissingSemiL (l : List Char) : List Char := rstripL l ++ [';']

/-- The character class opening an initializer in the var_to_const
pattern: a quote, a digit, an open bracket or an open brace. -/
def isVCInit (c : Char) : Bool :=
  c = dquoteC || c = squoteC || c.isDigit || c = '[' || c = lbraceC

/-- Pattern var_to_const: the word var, whitespace plus, word characters
plus, whitespace star, an equals sign, whitespace star, an initializer
opener. Each greedy run is forced maximal because the next class is
disjoint from it. -/
def matchVarConstL (l : List Char) : Bool :=
  l.tails.any fun t =>
    "var".data.isPrefixOf t &&
    (let v := t.drop 3
     let w := v.dropWhile isPySpace
     decide (w.length < v.length) &&
     (let x := w.dropWhile isWordChar
      decide (x.length < w.length) &&
      (match x.dropWhile isPySpace with
       | '=' :: z =>
         (match z.dropWhile isPySpace with
          | c :: _ => isVCInit c
          | [] => false)
       | _ => false)))

theorem dropWhile_length_le (p : Char → Bool) (l : List Char) :
    (l.dropWhile p).length ≤ l.length := by
  induction l with
  | nil => simp [List.dropWhile]
  | cons c t ih =>
    by_cases h : p c
    · simp only [List.dropWhile, h]
      exact Nat.le_trans ih (Nat.le_succ _)
    · simp [List.dropWhile, h]

/-- Fix var_to_const, written with explicit fuel so that it is
structurally recursive: each step consumes at least one character, so
fuel equal to the input length never runs out and the zero-fuel branch is
unreachable. The scan replaces every occurrence of the word var followed
by a greedy whitespace run with the six characters of const and a space,
left to right without overlap. -/
def subVarFuel : Nat → List Char → List Char
  | _, [] => []
  | 0, l => l
  | fuel + 1, c :: rest =>
    if "var".data.isPrefixOf (c :: rest) &&
       (match rest.drop 2 with
        | d :: _ => isPySpace d
        | [] => false) then
      "const ".data ++ subVarFuel fuel ((rest.drop 2).dropWhile isPySpace)
    else c :: subVarFuel fuel rest

def subVarL (l : List Char) : List Char := subVarFuel l.length l

/-- Tail of the double_equals pattern after the two equals signs: a
greedy optional third equals sign, then a non-equals character. -/
def deTailOk : List Char → Bool
  | '=' :: rest2 =>
    (match rest2 with
     | d :: _ => !(d = '=')
     | [] => false)
  | d :: _ => !(d = '=')
  | [] => false

/-- Pattern double_equals: a character that is neither equals nor bang,
two or three equals signs, then a non-equals character. -/
def matchDoubleEqL (l : List Char) : Bool :=
  l.tails.any fun t =>
    match t with
    | c1 :: '=' :: '=' :: rest => !(c1 = '=') && !(c1 = '!') && deTailOk rest
    | _ => false

/-- Fix double_equals: global substitution rewriting every match as group
one, three equals signs, group two; scanning resumes after group two. -/
def subDoubleEqL : List Char → List Char
  | c1 :: '=' :: '=' :: '=' :: d :: rest =>
    if !(c1 = '=') && !(c1 = '!') && !(d = '=') then
      c1 :: '=' :: '=' :: '=' :: d :: subDoubleEqL rest
    else c1 :: subDoubleEqL ('=' :: '=' :: '=' :: d :: rest)
  | c1 :: '=' :: '=' :: d :: rest =>
    if !(c1 = '=') && !(c1 = '!') && !(d = '=') then
      c1 :: '=' :: '=' :: '=' :: d :: subDoubleEqL rest
    else c1 :: subDoubleEqL ('=' :: '=' :: d :: rest)
  | c :: rest => c :: subDoubleEqL rest
  | [] => []

/-- Pattern unused_import: the word import, whitespace plus, a quoted
quote-free segment, then whitespace star reaching the end of the line. -/
def matchUnusedImportL (l : List Char) : Bool :=
  l.tails.any fun t =>
    "import".data.isPrefixOf t &&
    (let v := t.drop 6
     (match v with | c :: _ => isPySpace c | [] => false) &&
     (match v.dropWhile isPySpace with
      | c :: w =>
        c = dquoteC &&
        (match w.dropWhile (fun d => !(d = dquoteC)) with
         | e :: z => e = dquoteC && z.all isPySpace
         | [] => false)
      | [] => false))

/-- The gofmt_spacing pattern matches at a position when a word run
starts there and is followed by whitespace star, an open brace and
whitespace star reaching the end of the line. -/
def gsHere (t : List Char) : Bool :=
  (match t with | c :: _ => isWordChar c | [] => false) &&
  (match (t.dropWhile isWordChar).dropWhile isPySpace with
   | c :: z => c = lbraceC && z.all isPySpace
   | [] => false)

/-- Pattern gofmt_spacing. -/
def matchGofmtL (l : List Char) : Bool := l.tails.any gsHere

/-- Fix gofmt_spacing: the single possible match extends to the end of
the line; rewrite it as the word group, a space and the brace. -/
def subGofmtL : List Char → List Char
  | [] => []
  | c :: rest =>
    if gsHere (c :: rest) then (c :: rest).takeWhile isWordChar ++ [' ', lbraceC]
    else c :: subGofmtL rest

/-! ## SyntaxAnalyzer rule tables and line loop (src/app.py lines 181-286) -/

/-- One entry of fix_patterns: a named pattern, fix and description.
Every configured fix is a total function, so the try-except branch of the
line loop, which only fires when a fix raises, does not occur. -/
structure FixRule where
  name : String
  rmatch : String → Bool
  transform : String → String
  description : String

def mkB (f : List Char → Bool) : String → Bool := fun s => f s.data

def mkS (f : List Char → List Char) : String → String := fun s => ⟨f s.data⟩

/-- fix_patterns for python, in source dictionary order. -/
def pythonRules : List FixRule :=
  [⟨"missing_colon", mkB matchMissingColonL, mkS fixMissingColonL, "Missing colon"⟩,
   ⟨"print_parentheses", mkB matchPrintParL, mkS fixPrintParL,
    "Print statement needs parentheses"⟩,
   ⟨"indentation", mkB matchIndentL, mkS fixIndentL, "Indentation error"⟩]

/-- fix_patterns for javascript, in source dictionary order. -/
def javascriptRules : List FixRule :=
  [⟨"missing_semicolon", mkB matchMissingSemiL, mkS fixMissingSemiL, "Missing semicolon"⟩,
   ⟨"var_to_const", mkB matchVarConstL, mkS subVarL, "Use const instead of var"⟩,
   ⟨"double_equals", mkB matchDoubleEqL, mkS subDoubleEqL, "Use strict equality"⟩]

/-- fix_patterns for go, in source dictionary order; _fix_go_imports
returns its line unchanged. -/
def goRules : List FixRule :=
  [⟨"unused_import", mkB matchUnusedImportL, fun s => s, "Unused import"⟩,
   ⟨"gofmt_spacing", mkB matchGofmtL, mkS subGofmtL, "Go formatting"⟩]

/-- The fix_patterns dictionary, keyed by language. -/
def fixPatterns (language : String) : Option (List FixRule) :=
  if language = "python" then some pythonRules
  else if language = "javascript" then some javascriptRules
  else if language = "go" then some goRules
  else none

/-- The issue string recorded on a pattern match, with a 1-based line
number. -/
def lineIssue (idx : Nat) (r : FixRule) : String :=
  "Line " ++ Nat.repr (idx + 1) ++ ": " ++ r.description

/-- The fix string recorded when a transform changes the line. -/
def lineFix (idx : Nat) (r : FixRule) : String :=
  "Fixed " ++ r.name ++ " on line " ++ Nat.repr (idx + 1)

/-- The inner loop of analyze_syntax_errors over the rules of one line:
every pattern is matched against the line as originally read, the issue
is recorded on a match, the transform is applied to the original line,
and the stored line is overwritten whenever the transform output differs
from the original line. Returns the stored line, the issues and the
fixes. -/
def applyRulesAux (idx : Nat) (orig : String) :
    List FixRule → String → String × List String × List String
  | [], cur => (cur, [], [])
  | r :: rs, cur =>
    if r.rmatch orig then
      let f := r.transform orig
      if f = orig then
        let p := applyRulesAux idx orig rs cur
        (p.1, lineIssue idx r :: p.2.1, p.2.2)
      else
        let p := applyRulesAux idx orig rs f
        (p.1, lineIssue idx r :: p.2.1, lineFix idx r :: p.2.2)
    else applyRulesAux idx orig rs cur

/-- Processing of one line of content, starting from the line itself. -/
def applyRulesToLine (rules : List FixRule) (idx : Nat) (line : String) :
    String × List String × List String :=
  applyRulesAux idx line rules line

/-- The body of analyze_syntax_errors for a language with configured
rules: split into lines, process every line independently, and return
the issues, the fixes and the rejoined content. Each loop iteration only
overwrites its own line, so the per-line results are independent. -/
def analyzeParts (rules : List FixRule) (content : String) :
    List String × List String × String :=
  let lines := (splitNL content.data).map fun l => (⟨l⟩ : String)
  let per := lines.enum.map fun p => applyRulesToLine rules p.1 p.2
  ((per.map fun q => q.2.1).flatten,
   (per.map fun q => q.2.2).flatten,
   ⟨joinNL (per.map fun q => q.1.data)⟩)

/-- SyntaxAnalyzer.analyze_syntax_errors: for a language without rules
the content is returned unchanged with no findings; otherwise the issue
list and the fix list are concatenated into one result list. The memo
cache keyed by language and content hash only avoids recomputation. -/
def analyze_syntax_errors (content language : String) : List String × String :=
  match fixPatterns language with
  | none => ([], content)
  | some rules =>
    let p := analyzeParts rules content
    (p.1 ++ p.2.1, p.2.2)

/-! ## FixResult, statistics and fix_file_content (src/app.py lines 37-46,
288-303, 748-836) -/

/-- The FixResult dataclass. Durations are modeled as exact rationals. -/
structure FixResult where
  file_path : String
  original_errors : List String
  fixes_applied : List String
  success : Bool
  language : String
  processing_time : ℚ
  tool_used : String := "ILN_Auto_Syntax_Fixer"
deriving DecidableEq

/-- The process-wide statistics dictionary of AutoSyntaxFixerILN3. -/
structure Stats where
  files_processed : Nat
  total_fixes : Nat
  success_rate : ℚ
  avg_processing_time : ℚ
deriving DecidableEq

/-- The statistics at instance construction. -/
def startStats : Stats := ⟨0, 0, 0, 0⟩

/-- The statistics update block of fix_file_content: increment the file
counter, add the fix count, recompute the rate as total fixes over files
processed times 100, and fold the sample, scaled to milliseconds, into
the running average. -/
def updateStats (s : Stats) (numFixes : Nat) (pt : ℚ) : Stats :=
  let fp := s.files_processed + 1
  let tf := s.total_fixes + numFixes
  let sr := if 0 < fp then ((tf : ℚ) / (fp : ℚ)) * 100 else s.success_rate
  let avg := if fp = 1 then pt * 1000
             else (s.avg_processing_time * (((fp - 1 : Nat) : ℚ)) + pt * 1000) / (fp : ℚ)
  ⟨fp, tf, sr, avg⟩

/-- The tool loop of fix_file_content: try each tool on the current
content, stop at the first success, and accumulate the diagnostics of the
failures. The execute_tool call is abstracted as a function from tool
name and content to a success flag, a corrected content and diagnostic
lines. -/
def runTools (execTool : String → String → Bool × String × List String) :
    List String → String → List String → Bool × String × List String
  | [], content, accErrs => (false, content, accErrs)
  | t :: ts, content, accErrs =>
    let r := execTool t content
    if r.1 then (true, r.2.1, accErrs)
    else runTools execTool ts content (accErrs ++ r.2.2)

/-- The tool_mapping dictionary of fix_file_content: python maps to the
three configured tools and every other key, as well as the default of
the get call, maps to the empty list. -/
def toolMapping (language : String) : List String :=
  if language = "python" then ["black", "autopep8", "isort"] else []

/-- AutoSyntaxFixerILN3.fix_file_content with the statistics passed
explicitly: unknown language returns early without touching statistics;
otherwise the analyzer result list is cut in half to recover errors and
fixes, shell diagnostics and the external-formatting marker are appended,
the statistics are updated, and the result is assembled with success
defined as some fix applied or no error recorded. -/
def fix_file_content (execTool : String → String → Bool × String × List String)
    (s : Stats) (filePath content : String) (pt : ℚ) : FixResult × Stats :=
  let language := detect_language filePath content
  if language = "unknown" then
    (⟨filePath, ["Unknown file type"], [], false, language, pt, "ILN_Auto_Syntax_Fixer"⟩, s)
  else
    let ar := analyze_syntax_errors content language
    let shell := runTools execTool (toolMapping language) ar.2 []
    let allErrors := ar.1.take (ar.1.length / 2) ++ shell.2.2
    let allFixes := ar.1.drop (ar.1.length / 2) ++
      (if shell.1 then ["Applied external tool formatting"] else [])
    (⟨filePath, allErrors, allFixes, !allFixes.isEmpty || allErrors.isEmpty, language, pt,
      "ILN_Level3_" ++ (if shell.1 then "with_shell" else "internal")⟩,
     updateStats s allFixes.length pt)

/-! ## fix_repository (src/app.py lines 838-920) -/

/-- Outcome of the synchronous read of one discovered file. -/
inductive ReadOutcome where
  | readErr (msg : String)
  | ok (content : String)
deriving DecidableEq

/-- Outcome of one dispatched per-file task: a FixResult, or an exception
captured by gather with return_exceptions set. -/
inductive TaskOutcome where
  | exn (msg : String)
  | done (r : FixResult)
deriving DecidableEq

/-- The sentinel appended when a discovered file cannot be read. -/
def readFailResult (p msg : String) : FixResult :=
  ⟨p, ["Cannot read file: " ++ msg], [], false, "unknown", 0, "ILN_Auto_Syntax_Fixer"⟩

/-- The sentinel appended when a gathered task completed with an
exception. -/
def exnResult (msg : String) : FixResult :=
  ⟨"unknown", ["Processing error: " ++ msg], [], false, "unknown", 0, "ILN_Auto_Syntax_Fixer"⟩

/-- AutoSyntaxFixerILN3.fix_repository over an abstracted filesystem: the
existence of the root, the discovered eligible files with their read
outcomes, and the task runner are parameters. Read-failure sentinels are
appended during the dispatch loop in discovery order, then the gathered
results in task order; gather preserves the order of its arguments and
converts in-task exceptions into values. The worker bound does not affect
the returned list. -/
def fix_repository (exists_ : Bool) (files : List (String × ReadOutcome))
    (run : String → String → TaskOutcome) (repoPath : String) : List FixResult :=
  if exists_ = false then
    [⟨repoPath, ["Repository path does not exist"], [], false, "unknown", 0,
      "ILN_Auto_Syntax_Fixer"⟩]
  else if files = [] then
    [⟨repoPath, ["No supported files found"], [], false, "unknown", 0,
      "ILN_Auto_Syntax_Fixer"⟩]
  else
    let readErrs := files.filterMap fun pr =>
      match pr.2 with
      | ReadOutcome.readErr m => some (readFailResult pr.1 m)
      | ReadOutcome.ok _ => none
    let tasks := files.filterMap fun pr =>
      match pr.2 with
      | ReadOutcome.ok c => some (pr.1, c)
      | ReadOutcome.readErr _ => none
    let taskResults := tasks.map fun pc =>
      match run pc.1 pc.2 with
      | TaskOutcome.done r => r
      | TaskOutcome.exn m => exnResult m
    readErrs ++ taskResults

/-- Folding the statistics update over a sequence of completed files,
each contributing a fix count and a duration. -/
def foldStats (s : Stats) (l : List (Nat × ℚ)) : Stats :=
  l.foldl (fun acc p => updateStats acc p.1 p.2) s

/-! ## General list lemmas used below -/

theorem isPrefixOf_exists {k t : List Char} (h : k.isPrefixOf t = true) :
    ∃ u, t = k ++ u := by
  induction k generalizing t with
  | nil => exact ⟨t, rfl⟩
  | cons a as ih =>
    cases t with
    | nil => simp [List.isPrefixOf] at h
    | cons b bs =>
      simp only [List.isPrefixOf, Bool.and_eq_true, beq_iff_eq] at h
      obtain ⟨u, hu⟩ := ih h.2
      exact ⟨u, by simp [h.1, hu]⟩

theorem exists_isPrefixOf {k u : List Char} : k.isPrefixOf (k ++ u) = true := by
  induction k with
  | nil => simp [List.isPrefixOf]
  | cons a as ih => simp [List.isPrefixOf, ih]

theorem mem_last_of_append {r m : List Char} {x : Char}
    (h : ∃ p, p ++ r = m ++ [x]) (hr : r ≠ []) : x ∈ r := by
  obtain ⟨p, hp⟩ := h
  rcases List.eq_nil_or_concat r with rfl | ⟨ys, y, rfl⟩
  · exact absurd rfl hr
  · rw [List.concat_eq_append, ← List.append_assoc] at hp
    have := (List.append_inj' hp (by simp)).2
    simp only [List.cons.injEq] at this
    simp [this.1]

theorem getLastD_of_ne_nil {r : List Char} {a b : Char} (h : r ≠ []) :
    r.getLastD a = r.getLastD b := by
  induction r with
  | nil => exact absurd rfl h
  | cons c t ih =>
    cases t with
    | nil => rfl
    | cons d u => simpa using ih (by simp)

theorem getLastD_cons_of_ne_nil {r : List Char} {c : Char} (d : Char) (h : r ≠ []) :
    (c :: r).getLastD d = r.getLastD d := by
  cases r with
  | nil => exact absurd rfl h
  | cons e u => rfl

theorem getLastD_append_of_ne_nil {p r : List Char} (d : Char) (h : r ≠ []) :
    (p ++ r).getLastD d = r.getLastD d := by
  induction p with
  | nil => rfl
  | cons c q ih =>
    have hq : q ++ r ≠ [] := by
      intro hcon
      exact h (List.append_eq_nil.mp hcon).2
    rw [List.cons_append, getLastD_cons_of_ne_nil d hq, ih]

theorem getLastD_concat (p : List Char) (a d : Char) :
    (p ++ [a]).getLastD d = a := by
  rw [getLastD_append_of_ne_nil d (by simp)]
  rfl

/-! ## Claim theorems -/

/-- Claim C1: for every input, the FixResult returned by
fix_file_content has success equal to true exactly when its
fixes_applied list is nonempty or its original_errors list is empty. -/
theorem C1_success_invariant
    (execTool : String → String → Bool × String × List String)
    (s : Stats) (filePath content : String) (pt : ℚ) :
    (fix_file_content execTool s filePath content pt).1.success = true ↔
      ((fix_file_content execTool s filePath content pt).1.fixes_applied ≠ [] ∨
       (fix_file_content execTool s filePath content pt).1.original_errors = []) := by
  unfold fix_file_content
  by_cases h : detect_language filePath content = "unknown"
  · simp [h]
  · simp only [h, if_false]
    constructor
    · intro hs
      rcases Bool.or_eq_true _ _ |>.mp hs with h1 | h1
      · exact Or.inl (by simpa using h1)
      · exact Or.inr (by simpa using h1)
    · intro hs
      rcases hs with h1 | h1
      · exact Bool.or_eq_true _ _ |>.mpr (Or.inl (by simpa using h1))
      · exact Bool.or_eq_true _ _ |>.mpr (Or.inr (by simpa using h1))

/-- Claim C9: when the language of the input is classified as unknown,
fix_file_content returns a FixResult with success false, the single
issue string, and no fixes. -/
theorem C9_unknown_language_result
    (execTool : String → String → Bool × String × List String)
    (s : Stats) (filePath content : String) (pt : ℚ)
    (h : detect_language filePath content = "unknown") :
    (fix_file_content execTool s filePath content pt).1.success = false ∧
    (fix_file_content execTool s filePath content pt).1.original_errors =
      ["Unknown file type"] ∧
    (fix_file_content execTool s filePath content pt).1.fixes_applied = [] := by
  unfold fix_file_content
  simp [h]

theorem C9_unknown_language_result_witness :
    detect_language "notes.txt" "" = "unknown" ∧
    ((fix_file_content (fun _ _ => (false, "", [])) startStats "notes.txt" "" 1).1.success
        = false ∧
     (fix_file_content (fun _ _ => (false, "", [])) startStats "notes.txt" "" 1).1.original_errors
        = ["Unknown file type"] ∧
     (fix_file_content (fun _ _ => (false, "", [])) startStats "notes.txt" "" 1).1.fixes_applied
        = []) :=
  ⟨by decide, C9_unknown_language_result (fun _ _ => (false, "", [])) startStats
    "notes.txt" "" 1 (by decide)⟩

/-- Claim C3 counterexample: a file whose language is unknown completes
its processing through fix_file_content, yet the statistics are returned
untouched: the files-processed counter stays at zero instead of being
incremented. -/
theorem C3_counterexample :
    (fix_file_content (fun _ _ => (false, "", [])) startStats "notes.bin" "" 1).2
      = startStats ∧ startStats.files_processed = 0 := by
  constructor
  · decide
  · rfl

/-- Claim C3 as amended: the statistics are mutated exactly by the
processing of files with a known language, where the file counter is
incremented and the totals, rate and running average are recomputed by
the update block; a file classified as unknown completes without any
statistics update. -/
theorem C3_stats_update
    (execTool : String → String → Bool × String × List String)
    (s : Stats) (filePath content : String) (pt : ℚ) :
    (¬ detect_language filePath content = "unknown" →
      (fix_file_content execTool s filePath content pt).2 =
        updateStats s
          (fix_file_content execTool s filePath content pt).1.fixes_applied.length pt) ∧
    (detect_language filePath content = "unknown" →
      (fix_file_content execTool s filePath content pt).2 = s) := by
  constructor
  · intro h
    unfold fix_file_content
    simp [h]
  · intro h
    unfold fix_file_content
    simp [h]

theorem C3_stats_update_witness :
    ((¬ detect_language "a.py" "x = 1" = "unknown") ∧
      (fix_file_content (fun _ _ => (false, "", [])) startStats "a.py" "x = 1" 1).2 =
        updateStats startStats
          (fix_file_content (fun _ _ => (false, "", [])) startStats "a.py" "x = 1" 1).1.fixes_applied.length 1) ∧
    ((detect_language "b.dat" "" = "unknown") ∧
      (fix_file_content (fun _ _ => (false, "", [])) startStats "b.dat" "" 1).2 = startStats) :=
  ⟨⟨by decide,
    (C3_stats_update (fun _ _ => (false, "", [])) startStats "a.py" "x = 1" 1).1 (by decide)⟩,
   ⟨by decide,
    (C3_stats_update (fun _ _ => (false, "", [])) startStats "b.dat" "" 1).2 (by decide)⟩⟩

/-- Claim C8: whenever the lowercased extension of the file name is in
the extension table, detect_language returns the mapped language, for
every content argument. -/
theorem C8_extension_wins (filePath content lang : String)
    (h : lookupStr extensionMap (lowerStr (pathSuffix filePath)) = some lang) :
    detect_language filePath content = lang := by
  unfold detect_language
  rw [h]

theorem C8_extension_wins_witness :
    lookupStr extensionMap (lowerStr (pathSuffix "Test.PY")) = some "python" ∧
    detect_language "Test.PY" "package main" = "python" :=
  ⟨by decide, C8_extension_wins "Test.PY" "package main" "python" (by decide)⟩

/-- Claim C2 counterexample: on the single python line if x space
greater-than space 0, the rule engine does not return the line with just
a colon appended; the indentation rule also fires and its rewrite of the
original line wins. -/
theorem C2_counterexample :
    ¬ ((analyze_syntax_errors "if x > 0" "python").2 = "if x > 0:") := by
  decide

/-- Claim C2 as amended: on the input line if x space greater-than space
0, the rule engine discovers two issues, the missing colon and an
indentation issue, records two fixes, and returns the line re-indented
by four spaces, because each transform is applied to the original line
and the last changing transform wins. -/
theorem C2_amended_single_line :
    analyze_syntax_errors "if x > 0" "python" =
      (["Line 1: Missing colon", "Line 1: Indentation error",
        "Fixed missing_colon on line 1", "Fixed indentation on line 1"],
       "    if x > 0") := by
  decide

theorem read_task_split_count (files : List (String × ReadOutcome)) :
    (files.filterMap fun pr =>
      match pr.2 with
      | ReadOutcome.readErr m => some (readFailResult pr.1 m)
      | ReadOutcome.ok _ => none).length +
    (files.filterMap fun pr =>
      match pr.2 with
      | ReadOutcome.ok c => some (pr.1, c)
      | ReadOutcome.readErr _ => none).length = files.length := by
  induction files with
  | nil => rfl
  | cons f fs ih =>
    obtain ⟨p, ro⟩ := f
    cases ro with
    | readErr m =>
      simp only [List.filterMap_cons, List.length_cons]
      omega
    | ok c =>
      simp only [List.filterMap_cons, List.length_cons]
      omega

/-- Claim C5: for an existing root with a nonempty list of discovered
files, fix_repository returns exactly one FixResult per discovered file,
counting read-error sentinels, and a task that completed with an
exception contributes a failure FixResult instead of aborting the
batch. -/
theorem C5_batch_exactly_n (exists_ : Bool) (files : List (String × ReadOutcome))
    (run : String → String → TaskOutcome) (repoPath : String)
    (hex : exists_ = true) (hne : files ≠ []) :
    (fix_repository exists_ files run repoPath).length = files.length ∧
    (∀ p c m, (p, ReadOutcome.ok c) ∈ files → run p c = TaskOutcome.exn m →
      exnResult m ∈ fix_repository exists_ files run repoPath) := by
  subst hex
  unfold fix_repository
  rw [if_neg (by simp : ¬ (true = false)), if_neg hne]
  constructor
  · rw [List.length_append, List.length_map]
    exact read_task_split_count files
  · intro p c m hmem hrun
    apply List.mem_append_right
    apply List.mem_map.mpr
    refine ⟨(p, c), ?_, ?_⟩
    · exact List.mem_filterMap.mpr ⟨(p, ReadOutcome.ok c), hmem, rfl⟩
    · simp [hrun]

theorem C5_batch_exactly_n_witness :
    (true = true ∧
      ([("a.py", ReadOutcome.ok "x"), ("b.py", ReadOutcome.readErr "boom")] :
        List (String × ReadOutcome)) ≠ []) ∧
    ((fix_repository true [("a.py", ReadOutcome.ok "x"), ("b.py", ReadOutcome.readErr "boom")]
        (fun _ _ => TaskOutcome.exn "crash") "repo").length =
      ([("a.py", ReadOutcome.ok "x"), ("b.py", ReadOutcome.readErr "boom")] :
        List (String × ReadOutcome)).length ∧
     exnResult "crash" ∈
       fix_repository true [("a.py", ReadOutcome.ok "x"), ("b.py", ReadOutcome.readErr "boom")]
        (fun _ _ => TaskOutcome.exn "crash") "repo") :=
  ⟨⟨rfl, by decide⟩,
   (C5_batch_exactly_n true
      [("a.py", ReadOutcome.ok "x"), ("b.py", ReadOutcome.readErr "boom")]
      (fun _ _ => TaskOutcome.exn "crash") "repo" rfl (by decide)).1,
   (C5_batch_exactly_n true
      [("a.py", ReadOutcome.ok "x"), ("b.py", ReadOutcome.readErr "boom")]
      (fun _ _ => TaskOutcome.exn "crash") "repo" rfl (by decide)).2
      "a.py" "x" "crash" (by decide) rfl⟩

/-- Claim C6: a missing root produces exactly the single
path-does-not-exist sentinel with success false, and an existing root
with no eligible files produces exactly the single no-supported-files
sentinel with success false; both are returned as values, never raised. -/
theorem C6_sentinels (files : List (String × ReadOutcome))
    (run : String → String → TaskOutcome) (repoPath : String) :
    (fix_repository false files run repoPath =
      [⟨repoPath, ["Repository path does not exist"], [], false, "unknown", 0,
        "ILN_Auto_Syntax_Fixer"⟩]) ∧
    (files = [] → fix_repository true files run repoPath =
      [⟨repoPath, ["No supported files found"], [], false, "unknown", 0,
        "ILN_Auto_Syntax_Fixer"⟩]) := by
  constructor
  · unfold fix_repository
    simp
  · intro h
    subst h
    unfold fix_repository
    simp

theorem C6_sentinels_witness :
    (fix_repository false [("a.py", ReadOutcome.ok "x")]
        (fun _ _ => TaskOutcome.exn "e") "missing" =
      [⟨"missing", ["Repository path does not exist"], [], false, "unknown", 0,
        "ILN_Auto_Syntax_Fixer"⟩]) ∧
    (([] : List (String × ReadOutcome)) = [] ∧
     fix_repository true [] (fun _ _ => TaskOutcome.exn "e") "empty" =
      [⟨"empty", ["No supported files found"], [], false, "unknown", 0,
        "ILN_Auto_Syntax_Fixer"⟩]) :=
  ⟨(C6_sentinels [("a.py", ReadOutcome.ok "x")] (fun _ _ => TaskOutcome.exn "e") "missing").1,
   rfl,
   (C6_sentinels [] (fun _ _ => TaskOutcome.exn "e") "empty").2 rfl⟩

theorem find?_append_cases (a b : List FixRule) (p : FixRule → Bool) :
    (a ++ b).find? p =
      (match a.find? p with
       | some x => some x
       | none => b.find? p) := by
  induction a with
  | nil => rfl
  | cons c a ih =>
    by_cases h : p c
    · simp [List.find?_cons_of_pos _ h]
    · simp [List.find?_cons_of_neg _ h, ih]

/-- Claim C10 counterexample: the python line elif x is matched by two
rules, yet the final line is the missing_colon output rather than the
transform of the last matching rule, whose rewrite of the original line
is a no-op and therefore does not overwrite the stored line. -/
theorem C10_counterexample :
    (pythonRules.filter (fun r => r.rmatch "elif x")).length = 2 ∧
    (applyRulesToLine pythonRules 0 "elif x").1 = "elif x:" ∧
    ((pythonRules.reverse.find? (fun r => r.rmatch "elif x")).map
      (fun r => r.transform "elif x")) = some "elif x" ∧
    ¬ ("elif x:" = "elif x") := by
  decide

/-- Claim C10 as amended: in the rule loop of one line every transform is
evaluated against the line as originally read, and the stored line is
overwritten exactly by the matching rules whose transform output differs
from the original line; hence the final line is the transform of the
last matching and changing rule applied to the original line, or the
incoming stored line when no matching rule changes it, one issue is
recorded per matching rule and one fix per matching and changing rule. -/
theorem C10_last_changing_rule_wins (rules : List FixRule) (idx : Nat) (orig cur : String) :
    (applyRulesAux idx orig rules cur).1 =
      (match rules.reverse.find? (fun r => r.rmatch orig && !(r.transform orig == orig)) with
       | some r => r.transform orig
       | none => cur) ∧
    (applyRulesAux idx orig rules cur).2.1 =
      (rules.filter (fun r => r.rmatch orig)).map (lineIssue idx) ∧
    (applyRulesAux idx orig rules cur).2.2 =
      (rules.filter (fun r => r.rmatch orig && !(r.transform orig == orig))).map
        (lineFix idx) := by
  induction rules generalizing cur with
  | nil => simp [applyRulesAux]
  | cons r rs ih =>
    by_cases hm : r.rmatch orig = true
    · by_cases hf : r.transform orig = orig
      · obtain ⟨ih1, ih2, ih3⟩ := ih cur
        have hp0 : (r.rmatch orig && !(r.transform orig == orig)) = false := by
          simp [hf]
        refine ⟨?_, ?_, ?_⟩
        · have lhs : (applyRulesAux idx orig (r :: rs) cur).1 =
              (applyRulesAux idx orig rs cur).1 := by
            simp [applyRulesAux, hm, hf]
          rw [lhs, ih1, List.reverse_cons, find?_append_cases]
          cases hfind : rs.reverse.find?
              (fun r => r.rmatch orig && !(r.transform orig == orig)) with
          | some x => simp
          | none => simp [hp0]
        · have lhs : (applyRulesAux idx orig (r :: rs) cur).2.1 =
              lineIssue idx r :: (applyRulesAux idx orig rs cur).2.1 := by
            simp [applyRulesAux, hm, hf]
          rw [lhs, ih2, List.filter_cons]
          simp [hm]
        · have lhs : (applyRulesAux idx orig (r :: rs) cur).2.2 =
              (applyRulesAux idx orig rs cur).2.2 := by
            simp [applyRulesAux, hm, hf]
          rw [lhs, ih3, List.filter_cons]
          simp [hp0]
      · obtain ⟨jh1, jh2, jh3⟩ := ih (r.transform orig)
        have hp0 : (r.rmatch orig && !(r.transform orig == orig)) = true := by
          simp [hm, hf]
        refine ⟨?_, ?_, ?_⟩
        · have lhs : (applyRulesAux idx orig (r :: rs) cur).1 =
              (applyRulesAux idx orig rs (r.transform orig)).1 := by
            simp [applyRulesAux, hm, hf]
          rw [lhs, jh1, List.reverse_cons, find?_append_cases]
          cases hfind : rs.reverse.find?
              (fun r => r.rmatch orig && !(r.transform orig == orig)) with
          | some x => simp
          | none => simp [hp0]
        · have lhs : (applyRulesAux idx orig (r :: rs) cur).2.1 =
              lineIssue idx r :: (applyRulesAux idx orig rs (r.transform orig)).2.1 := by
            simp [applyRulesAux, hm, hf]
          rw [lhs, jh2, List.filter_cons]
          simp [hm]
        · have lhs : (applyRulesAux idx orig (r :: rs) cur).2.2 =
              lineFix idx r :: (applyRulesAux idx orig rs (r.transform orig)).2.2 := by
            simp [applyRulesAux, hm, hf]
          rw [lhs, jh3, List.filter_cons]
          simp [hp0]
    · rw [Bool.not_eq_true] at hm
      obtain ⟨ih1, ih2, ih3⟩ := ih cur
      have hp0 : (r.rmatch orig && !(r.transform orig == orig)) = false := by
        simp [hm]
      have lhs : applyRulesAux idx orig (r :: rs) cur = applyRulesAux idx orig rs cur := by
        simp [applyRulesAux, hm]
      refine ⟨?_, ?_, ?_⟩
      · rw [lhs, ih1, List.reverse_cons, find?_append_cases]
        cases hfind : rs.reverse.find?
            (fun r => r.rmatch orig && !(r.transform orig == orig)) with
        | some x => simp
        | none => simp [hp0]
      · rw [lhs, ih2, List.filter_cons]
        simp [hm]
      · rw [lhs, ih3, List.filter_cons]
        simp [hp0]

/-! ## Per-rule analysis for the idempotence claim -/

/-- Claim C4 counterexample: on the python line if x space greater-than
space 0 the first run returns a re-indented line without a colon, and a
second run of the rule engine on that corrected content applies further
fixes, so the corrected content is not a fixed point. -/
theorem C4_counterexample :
    (analyze_syntax_errors "if x > 0" "python").2 = "    if x > 0" ∧
    ¬ ((analyzeParts pythonRules ((analyze_syntax_errors "if x > 0" "python").2)).2.1 = []) := by
  decide

theorem matchMissingColonL_append_colon (m : List Char) :
    matchMissingColonL (m ++ [':']) = false := by
  rw [Bool.eq_false_iff]
  intro h
  rw [matchMissingColonL, List.any_eq_true] at h
  obtain ⟨t, ht, hkt⟩ := h
  rw [List.any_eq_true] at hkt
  obtain ⟨k, hk, hcond⟩ := hkt
  rw [Bool.and_eq_true] at hcond
  obtain ⟨hpre, htail⟩ := hcond
  obtain ⟨u, rfl⟩ := isPrefixOf_exists hpre
  rw [List.drop_left] at htail
  unfold noColonWsTail at htail
  cases u with
  | nil => simp at htail
  | cons c v =>
    rw [Bool.and_eq_true, List.all_eq_true] at htail
    obtain ⟨p, hp⟩ := (List.mem_tails _ _).mp ht
    have hmem : ':' ∈ (c :: v) :=
      mem_last_of_append ⟨p ++ k, by rw [List.append_assoc]; exact hp⟩ (by simp)
    have := htail.2 ':' hmem
    simp at this

theorem ppAfterWs_last {r : List Char} (h : ppAfterWs r = true) :
    ¬ (r.getLastD ')' = ')') := by
  induction r with
  | nil => simp [ppAfterWs] at h
  | cons c rest ih =>
    rw [ppAfterWs, Bool.or_eq_true] at h
    rcases h with h | h
    · rw [Bool.and_eq_true, Bool.and_eq_true] at h
      obtain ⟨⟨_, hne⟩, hlast⟩ := h
      have hne' : rest ≠ [] := by
        cases rest
        · simp at hne
        · simp
      rw [getLastD_cons_of_ne_nil _ hne', getLastD_of_ne_nil hne' (b := ' ')]
      simpa using hlast
    · rw [Bool.and_eq_true] at h
      have hne' : rest ≠ [] := by
        intro hcon
        rw [hcon] at h
        simp [ppAfterWs] at h
      rw [getLastD_cons_of_ne_nil _ hne']
      exact ih h.2

theorem ppCond_last {r : List Char} (h : ppCond r = true) :
    ¬ (r.getLastD ')' = ')') := by
  cases r with
  | nil => simp [ppCond] at h
  | cons c rest =>
    rw [ppCond, Bool.and_eq_true] at h
    have hne : rest ≠ [] := by
      intro hcon
      have h2 := h.2
      rw [hcon] at h2
      simp [ppAfterWs] at h2
    rw [getLastD_cons_of_ne_nil _ hne]
    exact ppAfterWs_last h.2

theorem matchPrintParL_last {l : List Char} (h : matchPrintParL l = true) :
    ¬ (l.getLastD ')' = ')') := by
  rw [matchPrintParL, List.any_eq_true] at h
  obtain ⟨t, ht, hcond⟩ := h
  rw [Bool.and_eq_true] at hcond
  obtain ⟨hpre, hcnd⟩ := hcond
  obtain ⟨u, rfl⟩ := isPrefixOf_exists hpre
  rw [show (5 : Nat) = ("print".data).length from rfl, List.drop_left] at hcnd
  have hu : ¬ (u.getLastD ')' = ')') := ppCond_last hcnd
  have hune : u ≠ [] := by
    intro hcon
    rw [hcon] at hu
    exact hu rfl
  obtain ⟨p, hp⟩ := (List.mem_tails _ _).mp ht
  have hl : l = (p ++ "print".data) ++ u := by
    rw [List.append_assoc, hp]
  rw [hl, getLastD_append_of_ne_nil _ hune]
  exact hu

theorem ppSplit_none_no_ppHere {l : List Char} (h : ppSplit l = none) :
    ∀ t, (∃ p, p ++ t = l) → ppHere t = false := by
  induction l with
  | nil =>
    intro t ⟨p, hp⟩
    have ht : t = [] := (List.append_eq_nil.mp hp).2
    rw [ht]
    rfl
  | cons c rest ih =>
    have hh : ppHere (c :: rest) = false := by
      by_cases hc : ppHere (c :: rest) = true
      · rw [ppSplit, if_pos hc] at h
        exact absurd h (by simp)
      · exact Bool.not_eq_true _ ▸ hc
    have hrest : ppSplit rest = none := by
      cases hsp : ppSplit rest with
      | none => rfl
      | some pr =>
        rw [ppSplit, if_neg (by simp [hh]), hsp] at h
        exact absurd h (by simp)
    intro t ⟨p, hp⟩
    cases p with
    | nil =>
      have : t = c :: rest := by simpa using hp
      rw [this]
      exact hh
    | cons a p2 =>
      have hp2 : p2 ++ t = rest := by
        have := List.cons.injEq a (p2 ++ t) c rest ▸ hp
        simp at hp
        exact hp.2
      exact ih hrest t ⟨p2, hp2⟩

theorem matchPrintParL_ppHere {l : List Char} (h : matchPrintParL l = true) :
    ∃ t, (∃ p, p ++ t = l) ∧ ppHere t = true := by
  rw [matchPrintParL, List.any_eq_true] at h
  obtain ⟨t, ht, hcond⟩ := h
  rw [Bool.and_eq_true] at hcond
  obtain ⟨hpre, hcnd⟩ := hcond
  refine ⟨t, (List.mem_tails _ _).mp ht, ?_⟩
  obtain ⟨u, rfl⟩ := isPrefixOf_exists hpre
  rw [show (5 : Nat) = ("print".data).length from rfl, List.drop_left] at hcnd
  rw [ppHere, Bool.and_eq_true]
  refine ⟨exists_isPrefixOf, ?_⟩
  rw [show (5 : Nat) = ("print".data).length from rfl, List.drop_left]
  cases u with
  | nil => simp [ppCond] at hcnd
  | cons d e =>
    rw [ppCond, Bool.and_eq_true] at hcnd
    have hene : e ≠ [] := by
      intro hcon
      have h2 := hcnd.2
      rw [hcon] at h2
      simp [ppAfterWs] at h2
    simp [hcnd.1, hene]

theorem matchPrintParL_fix (l : List Char) :
    matchPrintParL (fixPrintParL l) = false := by
  cases hsp : ppSplit l with
  | none =>
    have hfix : fixPrintParL l = l := by
      rw [fixPrintParL, hsp]
    rw [hfix, Bool.eq_false_iff]
    intro h
    obtain ⟨t, hsuf, hhere⟩ := matchPrintParL_ppHere h
    rw [ppSplit_none_no_ppHere hsp t hsuf] at hhere
    exact absurd hhere (by simp)
  | some pr =>
    obtain ⟨pre, r⟩ := pr
    have hlast : (fixPrintParL l).getLastD ')' = ')' := by
      rw [fixPrintParL, hsp]
      show (pre ++ "print(".data ++ ppCapture r ++ [')']).getLastD ')' = ')'
      rw [show pre ++ "print(".data ++ ppCapture r ++ [')'] =
            (pre ++ "print(".data ++ ppCapture r) ++ [')'] from by simp,
        getLastD_concat]
    rw [Bool.eq_false_iff]
    intro h
    exact matchPrintParL_last h hlast

theorem dropWhile_idem (p : Char → Bool) (l : List Char) :
    (l.dropWhile p).dropWhile p = l.dropWhile p := by
  induction l with
  | nil => rfl
  | cons c t ih =>
    by_cases h : p c = true
    · simp [List.dropWhile_cons, h, ih]
    · simp [List.dropWhile_cons, h]

theorem rstrip_append_trailing (m : List Char) :
    rstripL m ++ (m.reverse.takeWhile isPySpace).reverse = m := by
  rw [rstripL, ← List.reverse_append, List.takeWhile_append_dropWhile, List.reverse_reverse]

theorem mem_takeWhile_ws {p : Char → Bool} {x : Char} :
    ∀ {l : List Char}, x ∈ l.takeWhile p → p x = true := by
  intro l
  induction l with
  | nil => intro h; simp [List.takeWhile] at h
  | cons c t ih =>
    intro h
    by_cases hc : p c = true
    · rw [List.takeWhile_cons, if_pos hc] at h
      rcases List.mem_cons.mp h with rfl | h2
      · exact hc
      · exact ih h2
    · rw [List.takeWhile_cons, if_neg hc] at h
      simp at h

theorem isPrefixOf_take_iff (k : List Char) :
    ∀ (l : List Char), k.isPrefixOf l = true ↔ l.take k.length = k := by
  induction k with
  | nil => intro l; simp [List.isPrefixOf]
  | cons a as ih =>
    intro l
    cases l with
    | nil => simp [List.isPrefixOf]
    | cons b bs =>
      simp only [List.isPrefixOf, Bool.and_eq_true, beq_iff_eq, List.length_cons,
        List.take_succ_cons, List.cons.injEq, ih]
      constructor
      · rintro ⟨rfl, h⟩
        exact ⟨rfl, h⟩
      · rintro ⟨rfl, h⟩
        exact ⟨rfl, h⟩

theorem isPrefixOf_append_left {k a : List Char} (b : List Char)
    (h : k.isPrefixOf a = true) : k.isPrefixOf (a ++ b) = true := by
  obtain ⟨u, rfl⟩ := isPrefixOf_exists h
  rw [List.append_assoc]
  exact exists_isPrefixOf

theorem prefix_rstrip (k m : List Char) (hk : k.all (fun c => !isPySpace c) = true) :
    k.isPrefixOf (rstripL m) = k.isPrefixOf m := by
  have h1 : k.isPrefixOf (rstripL m) = true → k.isPrefixOf m = true := by
    intro h
    have h3 := isPrefixOf_append_left ((m.reverse.takeWhile isPySpace).reverse) h
    rw [rstrip_append_trailing m] at h3
    exact h3
  have h2 : k.isPrefixOf m = true → k.isPrefixOf (rstripL m) = true := by
    intro h
    rw [isPrefixOf_take_iff] at h ⊢
    have hm : rstripL m ++ (m.reverse.takeWhile isPySpace).reverse = m :=
      rstrip_append_trailing m
    by_cases hn : k.length ≤ (rstripL m).length
    · rw [← hm, List.take_append_eq_append_take] at h
      rw [show k.length - (rstripL m).length = 0 from by omega] at h
      simpa using h
    · exfalso
      rw [← hm, List.take_append_eq_append_take,
        List.take_of_length_le (by omega)] at h
      cases htw : (m.reverse.takeWhile isPySpace).reverse with
      | nil =>
        rw [htw, List.take_nil, List.append_nil] at h
        have := congrArg List.length h
        omega
      | cons c t2 =>
        rw [htw] at h
        obtain ⟨j, hjj⟩ : ∃ j, k.length - (rstripL m).length = j + 1 :=
          ⟨k.length - (rstripL m).length - 1, by omega⟩
        rw [hjj, List.take_succ_cons] at h
        have hck : c ∈ k := by
          rw [← h]
          exact List.mem_append_right _ (List.mem_cons_self _ _)
        have hcw : isPySpace c = true := by
          apply mem_takeWhile_ws (p := isPySpace) (l := m.reverse)
          have hc : c ∈ (m.reverse.takeWhile isPySpace).reverse := by
            rw [htw]
            exact List.mem_cons_self _ _
          exact (List.mem_reverse).mp hc
        rw [List.all_eq_true] at hk
        have := hk c hck
        rw [hcw] at this
        simp at this
  cases hr : k.isPrefixOf (rstripL m) <;> cases hm2 : k.isPrefixOf m
  · rfl
  · rw [h2 hm2] at hr
    exact absurd hr (by simp)
  · rw [h1 hr] at hm2
    exact absurd hm2 (by simp)
  · rfl

theorem lstrip_sp4 (x : List Char) : lstripL (sp4 ++ x) = lstripL x := by
  have hsp : isPySpace ' ' = true := by decide
  simp [sp4, lstripL, List.dropWhile_cons, hsp]

theorem lstrip_cons_of_nonws {c : Char} (t : List Char) (h : isPySpace c = false) :
    lstripL (c :: t) = c :: t := by
  simp [lstripL, List.dropWhile_cons, h]

theorem head_lstrip_nonws :
    ∀ {m : List Char} {c : Char} {t : List Char},
      lstripL m = c :: t → isPySpace c = false := by
  intro m
  induction m with
  | nil => intro c t h; simp [lstripL] at h
  | cons a m2 ih =>
    intro c t h
    by_cases ha : isPySpace a = true
    · rw [lstripL, List.dropWhile_cons, if_pos ha] at h
      exact ih h
    · rw [lstripL, List.dropWhile_cons, if_neg ha] at h
      injection h with h1 h2
      rw [← h1]
      simpa using ha

theorem strip_head_nonws {l : List Char} {c : Char} {t : List Char}
    (h : stripL l = c :: t) : isPySpace c = false := by
  have hm : lstripL l = (c :: t) ++ ((lstripL l).reverse.takeWhile isPySpace).reverse := by
    conv_lhs => rw [← rstrip_append_trailing (lstripL l)]
    rw [show rstripL (lstripL l) = stripL l from rfl, h]
  exact head_lstrip_nonws (by rw [hm]; rfl)

theorem lstrip_strip (l : List Char) : lstripL (stripL l) = stripL l := by
  cases h : stripL l with
  | nil => rfl
  | cons c t => exact lstrip_cons_of_nonws t (strip_head_nonws h)

theorem rstrip_idem (m : List Char) : rstripL (rstripL m) = rstripL m := by
  simp [rstripL, List.reverse_reverse, dropWhile_idem]

theorem strip_strip (l : List Char) : stripL (stripL l) = stripL l := by
  show rstripL (lstripL (stripL l)) = stripL l
  rw [lstrip_strip]
  show rstripL (rstripL (lstripL l)) = stripL l
  rw [rstrip_idem]
  rfl

theorem strip_sp4_strip (l : List Char) : stripL (sp4 ++ stripL l) = stripL l := by
  show rstripL (lstripL (sp4 ++ stripL l)) = stripL l
  rw [lstrip_sp4, lstrip_strip]
  show rstripL (rstripL (lstripL l)) = stripL l
  rw [rstrip_idem]
  rfl

theorem anyCongr {ks : List (List Char)} {f g : List Char → Bool}
    (h : ∀ k ∈ ks, f k = g k) : ks.any f = ks.any g := by
  induction ks with
  | nil => rfl
  | cons k rest ih =>
    rw [List.any_cons, List.any_cons, h k (List.mem_cons_self _ _),
      ih fun x hx => h x (List.mem_cons_of_mem _ hx)]

theorem startsKw_of_lstrip (ks : List (List Char)) (l out : List Char)
    (hout : lstripL out = stripL l)
    (hk : ∀ k ∈ ks, k.all (fun c => !isPySpace c) = true) :
    startsKw ks out = startsKw ks l := by
  unfold startsKw
  rw [hout]
  exact anyCongr fun k hkm => prefix_rstrip k (lstripL l) (hk k hkm)

theorem fixIndentL_idem (l : List Char) : fixIndentL (fixIndentL l) = fixIndentL l := by
  by_cases hs : (stripL l).isEmpty = true
  · have h0 : fixIndentL l = l := by
      rw [fixIndentL, if_pos hs]
    rw [h0]
    exact h0
  · rw [Bool.not_eq_true] at hs
    have hkw1 : ∀ k ∈ indKw1, k.all (fun c => !isPySpace c) = true := by decide
    have hkw2 : ∀ k ∈ indKw2, k.all (fun c => !isPySpace c) = true := by decide
    have hlst1 : lstripL (sp4 ++ stripL l) = stripL l := by
      rw [lstrip_sp4, lstrip_strip]
    have hlst2 : lstripL (stripL l) = stripL l := lstrip_strip l
    by_cases h1 : startsKw indKw1 l = true
    · have hout : fixIndentL l = sp4 ++ stripL l := by
        rw [fixIndentL, if_neg (by simp [hs]), if_pos h1]
      rw [hout, fixIndentL, if_neg (by simp [strip_sp4_strip l, hs]),
        if_pos (by rw [startsKw_of_lstrip indKw1 l _ hlst1 hkw1]; exact h1),
        strip_sp4_strip l]
    · by_cases h2 : startsKw indKw2 l = true
      · have hout : fixIndentL l = stripL l := by
          rw [fixIndentL, if_neg (by simp [hs]), if_neg (by simp [h1]), if_pos h2]
        rw [hout, fixIndentL, if_neg (by simp [strip_strip l, hs]),
          if_neg (by rw [startsKw_of_lstrip indKw1 l _ hlst2 hkw1]; simp [h1]),
          if_pos (by rw [startsKw_of_lstrip indKw2 l _ hlst2 hkw2]; exact h2),
          strip_strip l]
      · have hout : fixIndentL l = sp4 ++ stripL l := by
          rw [fixIndentL, if_neg (by simp [hs]), if_neg (by simp [h1]),
            if_neg (by simp [h2])]
        rw [hout, fixIndentL, if_neg (by simp [strip_sp4_strip l, hs]),
          if_neg (by rw [startsKw_of_lstrip indKw1 l _ hlst1 hkw1]; simp [h1]),
          if_neg (by rw [startsKw_of_lstrip indKw2 l _ hlst1 hkw2]; simp [h2]),
          strip_sp4_strip l]

/-- Claim C4 as amended: the rule engine is not a fixed point operator in
general, as the counterexample shows, because the output of one rule can
trigger a different rule; what does hold is that no configured python
rule re-triggers on its own output: a line rewritten by the missing
colon fix no longer matches the missing colon pattern, a line rewritten
by the print parentheses fix no longer matches its pattern, and the
indentation transform is idempotent, so re-applying any single rule to
its own output records no further fix. -/
theorem C4_per_rule_no_retrigger (l : List Char) :
    matchMissingColonL (fixMissingColonL l) = false ∧
    matchPrintParL (fixPrintParL l) = false ∧
    fixIndentL (fixIndentL l) = fixIndentL l :=
  ⟨matchMissingColonL_append_colon (rstripL l),
   matchPrintParL_fix l,
   fixIndentL_idem l⟩

theorem foldStats_files (s : Stats) (l : List (Nat × ℚ)) :
    (foldStats s l).files_processed = s.files_processed + l.length := by
  induction l generalizing s with
  | nil => simp [foldStats]
  | cons d ds ih =>
    rw [foldStats, List.foldl_cons]
    show (foldStats (updateStats s d.1 d.2) ds).files_processed = _
    rw [ih]
    simp only [updateStats, List.length_cons]
    omega

theorem updateStats_avg (s : Stats) (nf : Nat) (pt : ℚ) :
    (updateStats s nf pt).avg_processing_time =
      if s.files_processed + 1 = 1 then pt * 1000
      else (s.avg_processing_time * ((s.files_processed : Nat) : ℚ) + pt * 1000) /
        (((s.files_processed + 1 : Nat)) : ℚ) := by
  simp [updateStats]

/-- Claim C7: starting from fresh statistics, the incremental update
new average equals old average times n minus one plus the new sample
scaled to milliseconds, all over n, maintains the exact arithmetic mean
of the samples; in particular the samples 10, 20 and 30 milliseconds,
that is 1/100, 1/50 and 3/100 seconds, give an average of 20
milliseconds. The arithmetic is modeled over the rationals; the concrete
values are exactly representable in the floating point of the source. -/
theorem C7_running_average :
    (∀ l : List (Nat × ℚ), l ≠ [] →
      (foldStats startStats l).avg_processing_time =
        1000 * ((l.map Prod.snd).sum) / (l.length : ℚ)) ∧
    (foldStats startStats [(0, 1/100), (0, 1/50), (0, 3/100)]).avg_processing_time = 20 := by
  constructor
  · intro l
    induction l using List.reverseRecOn with
    | nil => intro h; exact absurd rfl h
    | append_singleton ds d ih =>
      intro _
      rw [foldStats, List.foldl_append, List.foldl_cons, List.foldl_nil]
      show (updateStats (foldStats startStats ds) d.1 d.2).avg_processing_time = _
      by_cases hds : ds = []
      · subst hds
        simp only [foldStats, List.foldl_nil, updateStats_avg, startStats]
        norm_num
        ring
      · have hlen : ds.length ≠ 0 := by
          simpa using fun hcon => hds (List.length_eq_zero.mp hcon)
        have hn : (foldStats startStats ds).files_processed = ds.length := by
          rw [foldStats_files]
          simp [startStats]
        rw [updateStats_avg, hn, if_neg (by omega), ih hds]
        simp only [List.map_append, List.sum_append, List.length_append,
          List.map_cons, List.map_nil, List.sum_cons, List.sum_nil, List.length_cons,
          List.length_nil]
        have hnq : ((ds.length : Nat) : ℚ) ≠ 0 := by
          exact_mod_cast hlen
        push_cast
        field_simp
        ring
  · simp only [foldStats, List.foldl, updateStats, startStats]
    norm_num

theorem C7_running_average_witness :
    (([((0 : Nat), (2 : ℚ))] : List (Nat × ℚ)) ≠ []) ∧
    (foldStats startStats [((0 : Nat), (2 : ℚ))]).avg_processing_time =
      1000 * (([((0 : Nat), (2 : ℚ))].map Prod.snd).sum) /
        (([((0 : Nat), (2 : ℚ))].length : ℚ)) :=
  ⟨by simp, C7_running_average.1 [((0 : Nat), (2 : ℚ))] (by simp)⟩

end AutoSyntaxFixer
